import Mathlib

/-!
Verification of the SmartMap-Agent backend (travel-planning assistant).

Shallow embedding of the Python sources:
  * `src/backend/src/core/chat_openai.py`   (chat driver / transcript)
  * `src/backend/src/core/travel_agent.py`  (planning loop `TravelAgent._invoke`)
  * `src/backend/src/core/session_manager.py` (session registry)
  * `src/backend/src/api/main.py`           (HTTP routes)

External effects (the OpenAI streaming endpoint, MCP subprocesses, wall-clock
time, uuid generation) are passed in as explicit parameters: the model endpoint
is an oracle function on the transcript, the stream is a list of deltas, `now`
is a natural-number timestamp, and fresh session ids are arguments.
Status / stream callbacks are advisory telemetry (they only forward events to
listeners and swallow their own exceptions) and are not modelled.
-/

/-- Message roles used in the transcript (`system` / `user` / `assistant` / `tool`). -/
inductive Role where
  | system
  | user
  | assistant
  | tool
deriving DecidableEq, Repr

/-- `ToolCallFunction` from `chat_openai.py`: accumulated function name and argument text. -/
structure ToolCallFunction where
  name : String := ""
  arguments : String := ""
deriving DecidableEq, Repr

/-- `ToolCall` from `chat_openai.py`: model-assigned id plus the function payload. -/
structure ToolCall where
  id : String := ""
  function : ToolCallFunction := {}
deriving DecidableEq, Repr

/-- One transcript entry (`self.messages` elements in `AsyncChatOpenAI`).
Assistant messages carry `tool_calls`; tool messages carry `tool_call_id`. -/
structure Message where
  role : Role
  content : String
  tool_calls : List ToolCall := []
  tool_call_id : Option String := none
deriving DecidableEq, Repr

/-- `ChatOpenAIChatResponse`: the accumulated pair returned by `chat`. -/
structure ChatResponse where
  content : String := ""
  tool_calls : List ToolCall := []
deriving DecidableEq, Repr

def mkUserMsg (content : String) : Message :=
  { role := .user, content := content }

def mkAssistantMsg (content : String) (tcs : List ToolCall) : Message :=
  { role := .assistant, content := content, tool_calls := tcs }

def mkToolMsg (id : String) (content : String) : Message :=
  { role := .tool, content := content, tool_call_id := some id }

/-- `AsyncChatOpenAI.append_tool_result`: append one tool-role message
referencing `tool_call_id` to the transcript. -/
def append_tool_result (msgs : List Message) (tool_call_id : String)
    (tool_output : String) : List Message :=
  msgs ++ [mkToolMsg tool_call_id tool_output]

/-- `AsyncChatOpenAI.clear_messages`: keep exactly the system-role messages. -/
def clear_messages (msgs : List Message) : List Message :=
  msgs.filter (fun m => m.role = .system)

/-! ## Streaming accumulation (`AsyncChatOpenAI._chat`)

The OpenAI stream delivers chunks whose delta may carry a piece of content and
a list of tool-call fragments.  A fragment addresses a tool call by `index` and
optionally carries pieces of `id`, `function.name`, `function.arguments`. -/

/-- A fragment of `delta.tool_calls[k].function` in one stream chunk. -/
structure DeltaFunction where
  name : Option String := none
  arguments : Option String := none
deriving DecidableEq, Repr

/-- A fragment of one tool call in one stream chunk, addressed by `index`. -/
structure DeltaToolCall where
  index : Nat
  id : Option String := none
  function : Option DeltaFunction := none
deriving DecidableEq, Repr

/-- One stream chunk's delta.  A `None` tool-call list and an empty one behave
identically in the source (`if delta.tool_calls:` skips both), so we use a
plain list. -/
structure Delta where
  content : Option String := none
  tool_calls : List DeltaToolCall := []
deriving DecidableEq, Repr

/-- Python `if piece: acc += piece or ""`: append an optional string piece,
skipping `None` and the (no-op) empty string. -/
def strAppendTruthy (s : String) (o : Option String) : String :=
  match o with
  | none => s
  | some t => if t = "" then s else s ++ t

/-- Apply one tool-call fragment to one accumulated `ToolCall`, concatenating
each present piece onto the existing partial value (never overwriting). -/
def applyFragTo (tc : ToolCall) (f : DeltaToolCall) : ToolCall :=
  let tc := { tc with id := strAppendTruthy tc.id f.id }
  match f.function with
  | none => tc
  | some fn =>
      { tc with function :=
          { name := strAppendTruthy tc.function.name fn.name,
            arguments := strAppendTruthy tc.function.arguments fn.arguments } }

/-- The blank `ToolCall()` appended by `_chat` when a new index appears. -/
def blankToolCall : ToolCall :=
  { id := "", function := { name := "", arguments := "" } }

/-- The loop body over `delta.tool_calls` in `_chat`: append a blank `ToolCall`
when the index is one past the end, then update the entry at the index in
place.  An index beyond that raises `IndexError` in Python (`none` here). -/
def stepFrag (tcs : List ToolCall) (f : DeltaToolCall) : Option (List ToolCall) :=
  let tcs := if tcs.length ≤ f.index then tcs ++ [blankToolCall] else tcs
  if h : f.index < tcs.length then
    some (tcs.set f.index (applyFragTo (tcs.get ⟨f.index, h⟩) f))
  else
    none

/-- Accumulation state of `_chat` while consuming the stream. -/
structure StreamAcc where
  content : String := ""
  tool_calls : List ToolCall := []
deriving DecidableEq, Repr

/-- Processing of one stream chunk in `_chat`. -/
def stepDelta (acc : StreamAcc) (d : Delta) : Option StreamAcc := do
  let tcs ← d.tool_calls.foldlM stepFrag acc.tool_calls
  pure { content := strAppendTruthy acc.content d.content, tool_calls := tcs }

/-- `AsyncChatOpenAI._chat`, with the stream made explicit: append the prompt
as a user message when non-empty, fold the stream into `(content, tool_calls)`,
append the accumulated assistant message, and return the new transcript
together with the returned `ChatOpenAIChatResponse`. -/
def chatOnStream (messages : List Message) (prompt : String)
    (stream : List Delta) : Option (List Message × ChatResponse) := do
  let messages := if prompt = "" then messages else messages ++ [mkUserMsg prompt]
  let acc ← stream.foldlM stepDelta {}
  pure (messages ++ [mkAssistantMsg acc.content acc.tool_calls],
        { content := acc.content, tool_calls := acc.tool_calls })

/-! Specification-side description of the accumulation, used to state that
same-index fragments are concatenated in arrival order. -/

/-- All tool-call fragments of the stream addressed to position `i`, in
arrival order. -/
def fragsAt (stream : List Delta) (i : Nat) : List DeltaToolCall :=
  (stream.flatMap Delta.tool_calls).filter (fun f => f.index = i)

/-- The tool call expected at position `i`: the in-order concatenation of all
fragments addressed to `i`, starting from the blank tool call. -/
def accToolCallAt (stream : List Delta) (i : Nat) : ToolCall :=
  (fragsAt stream i).foldl applyFragTo blankToolCall

/-- The content expected from the stream: in-order concatenation of all
content pieces. -/
def accContent (stream : List Delta) : String :=
  stream.foldl (fun s d => strAppendTruthy s d.content) ""

/-! ## Planning loop (`TravelAgent._invoke`, travel_agent.py)

The model endpoint is an oracle `List Message → Except String ChatResponse`
(`.error` is the upstream failure raised by the completion call).  An MCP
client is its cached tool-name catalog plus a call oracle
`name → arguments → Except String String` covering `json.loads` of the
argument text, `call_tool`, and `model_dump_json` of the result (`.error e`
carries `str(e)` of the raised exception). -/

/-- One `MCPClient`, abstracted to what `_invoke` consumes. -/
structure MCPClientModel where
  toolNames : List String
  call : String → String → Except String String

/-- The connector lookup in `_invoke`: the first client whose catalog
contains the function name. -/
def findTargetClient (clients : List MCPClientModel) (fname : String) :
    Option MCPClientModel :=
  clients.find? (fun c => fname ∈ c.toolNames)

/-- One tool call dispatched by `_invoke`: resolve the connector, invoke it,
and append exactly one tool-role result message under the call's id —
`工具未找到` when no catalog has the name, `工具调用失败: ...` when the
invocation raises, the serialized result otherwise. -/
def dispatchToolCall (clients : List MCPClientModel) (msgs : List Message)
    (tc : ToolCall) : List Message :=
  match findTargetClient clients tc.function.name with
  | some c =>
      match c.call tc.function.name tc.function.arguments with
      | .ok r => append_tool_result msgs tc.id r
      | .error e => append_tool_result msgs tc.id ("工具调用失败: " ++ e)
  | none => append_tool_result msgs tc.id "工具未找到"

/-- The `for tool_call in chat_resp.tool_calls:` loop of `_invoke`. -/
def dispatchToolCalls (clients : List MCPClientModel) (msgs : List Message)
    (tcs : List ToolCall) : List Message :=
  tcs.foldl (dispatchToolCall clients) msgs

/-- The result text appended for one tool call (specification-side reading of
`dispatchToolCall`). -/
def toolResultText (clients : List MCPClientModel) (tc : ToolCall) : String :=
  match findTargetClient clients tc.function.name with
  | some c =>
      match c.call tc.function.name tc.function.arguments with
      | .ok r => r
      | .error e => "工具调用失败: " ++ e
  | none => "工具未找到"

/-- `AsyncChatOpenAI.chat` at the planning-loop level of abstraction: append
the prompt when non-empty, query the model on the transcript, and on success
append the accumulated assistant message (cf. `chatOnStream`). -/
def chatStep (model : List Message → Except String ChatResponse)
    (msgs : List Message) (prompt : String) :
    Except String (List Message × ChatResponse) :=
  let msgs := if prompt = "" then msgs else msgs ++ [mkUserMsg prompt]
  match model msgs with
  | .error e => .error e
  | .ok resp => .ok (msgs ++ [mkAssistantMsg resp.content resp.tool_calls], resp)

/-- Outcome of the planning loop: a final answer, or the error the model
call raised. -/
inductive InvokeResult where
  | answer (s : String)
  | upstream (e : String)
deriving DecidableEq, Repr

/-- The `while True:` cycle of `_invoke`, with fuel standing in for the
unbounded iteration (`none` = the loop has not finished within `fuel`
cycles).  A response without tool calls ends the cycle and returns its
content; otherwise every tool call is dispatched in order and the model is
asked again on the extended transcript. -/
def invokeLoop (clients : List MCPClientModel)
    (model : List Message → Except String ChatResponse) :
    Nat → List Message → ChatResponse → Option InvokeResult
  | 0, _, _ => none
  | fuel + 1, msgs, resp =>
      match resp.tool_calls with
      | [] => some (.answer resp.content)
      | _ :: _ =>
          match chatStep model (dispatchToolCalls clients msgs resp.tool_calls) "" with
          | .error e => some (.upstream e)
          | .ok (msgs', resp') => invokeLoop clients model fuel msgs' resp'

/-- `TravelAgent._invoke`: first model call on the user's prompt, then the
cycle. -/
def invoke (clients : List MCPClientModel)
    (model : List Message → Except String ChatResponse)
    (fuel : Nat) (msgs : List Message) (prompt : String) : Option InvokeResult :=
  match chatStep model msgs prompt with
  | .error e => some (.upstream e)
  | .ok (msgs', resp) => invokeLoop clients model fuel msgs' resp

/-- One full cycle of `_invoke` for a total (never-failing) model oracle:
dispatch the current response's tool calls, then the next model call on the
extended transcript. -/
def invokeCycle (clients : List MCPClientModel)
    (model : List Message → ChatResponse)
    (s : List Message × ChatResponse) : List Message × ChatResponse :=
  let msgs' := dispatchToolCalls clients s.1 s.2.tool_calls
  let resp' := model msgs'
  (msgs' ++ [mkAssistantMsg resp'.content resp'.tool_calls], resp')

/-! ## Session registry (`session_manager.py`)

Timestamps are naturals (`datetime.now()` passed in as `now`); `uuid.uuid4()`
is passed in as the fresh id.  `asyncio.create_task(self.delete_session(sid))`
defers the deletion: the model records the scheduled id in `pending`, and
`runPending` is the event loop later running those tasks. -/

/-- Python-`Any` values storable in a `UserProfile` attribute. -/
inductive PValue where
  | str (v : String)
  | strList (v : List String)
deriving DecidableEq, Repr

/-- `UserProfile` (travel_agent.py) with its constructor defaults
(`__post_init__` fills `preferences`).  Attribute values are `PValue` since
`setattr` is untyped. -/
structure UserProfile where
  name : PValue := .str "用户"
  home_location : PValue := .str "北京"
  preferences : PValue := .strList ["文化古迹", "美食", "自然风光"]
  budget_range : PValue := .str "中等"
  travel_style : PValue := .str "休闲"
deriving DecidableEq, Repr

/-- One `chat_history` entry (a dict with role / content / timestamp). -/
structure HistoryMessage where
  role : String
  content : String
  timestamp : String
deriving DecidableEq, Repr

/-- `SessionData` (session_manager.py); `agent_instance` is not needed by the
claims and is omitted. -/
structure SessionData where
  session_id : String
  user_profile : UserProfile
  chat_history : List HistoryMessage
  created_at : Nat
  last_activity : Nat
  status : String := "active"
  current_request : String := ""
deriving DecidableEq, Repr

/-- The registry state: `self.sessions` as an insertion-ordered association
list (Python dict order), plus the ids whose `delete_session` task has been
scheduled with `asyncio.create_task` but has not run yet. -/
structure RegState where
  sessions : List SessionData := []
  pending : List String := []
deriving DecidableEq, Repr

/-- `SessionData.is_expired`: `(now - last_activity).total_seconds() >
SESSION_TIMEOUT`.  Truncated `Nat` subtraction agrees with Python for a
non-decreasing clock. -/
def is_expired (timeout now : Nat) (s : SessionData) : Bool :=
  timeout < now - s.last_activity

/-- `min(self.sessions.keys(), key=lambda sid: ...last_activity)`: Python's
`min` keeps the first element attaining the minimum, `none` on an empty
registry (where Python raises `ValueError`). -/
def oldestSession (ss : List SessionData) : Option SessionData :=
  ss.foldl
    (fun acc s =>
      match acc with
      | none => some s
      | some b => if s.last_activity < b.last_activity then some s else some b)
    none

/-- A fresh `SessionData` as built by `create_session`. -/
def newSessionData (sid : String) (profile : UserProfile) (now : Nat) :
    SessionData :=
  { session_id := sid, user_profile := profile, chat_history := [],
    created_at := now, last_activity := now }

/-- `SessionManager.create_session`: when the registry is at or above
capacity, schedule (not run) deletion of the oldest-by-last-activity session,
then insert the new session.  `none` is the `ValueError` of `min` on an empty
registry (only reachable with capacity 0). -/
def create_session (maxSessions : Nat) (sid : String) (profile : UserProfile)
    (now : Nat) (st : RegState) : Option RegState :=
  if maxSessions ≤ st.sessions.length then
    match oldestSession st.sessions with
    | none => none
    | some o =>
        some { sessions := st.sessions ++ [newSessionData sid profile now],
               pending := st.pending ++ [o.session_id] }
  else
    some { st with sessions := st.sessions ++ [newSessionData sid profile now] }

/-- `SessionManager.delete_session`: remove the entry for the id if present
(idempotent). -/
def delete_session (sid : String) (ss : List SessionData) : List SessionData :=
  ss.filter (fun s => s.session_id ≠ sid)

/-- The event loop running every scheduled `delete_session` task, in order. -/
def runPending (st : RegState) : RegState :=
  { sessions := st.pending.foldl (fun ss sid => delete_session sid ss) st.sessions,
    pending := [] }

/-- `SessionManager.get_session`: if the id is present and not expired,
refresh `last_activity` and return the (updated) session; if present but
expired, schedule deletion and return `None`; `None` when absent. -/
def get_session (timeout now : Nat) (st : RegState) (sid : String) :
    Option SessionData × RegState :=
  match st.sessions.find? (fun s => s.session_id = sid) with
  | some s =>
      if is_expired timeout now s then
        (none, { st with pending := st.pending ++ [sid] })
      else
        let s' := { s with last_activity := now }
        (some s',
         { st with sessions :=
             st.sessions.map (fun t => if t.session_id = sid then s' else t) })
  | none => (none, st)

/-- The Python slice `chat_history[-limit:]` for an `int` limit (the
`limit != 0` case): a positive limit keeps the last `limit` entries, a
negative limit `-k` is the positive start index `k`, dropping the first `k`. -/
def pyTailSlice (l : List HistoryMessage) (limit : Int) : List HistoryMessage :=
  if 0 ≤ limit then l.drop (l.length - limit.toNat) else l.drop (-limit).toNat

/-- `SessionManager.get_chat_history`: `[]` when `get_session` finds nothing;
otherwise `chat_history[-limit:] if limit else chat_history`. -/
def get_chat_history (timeout now : Nat) (st : RegState) (sid : String)
    (limit : Int) : List HistoryMessage :=
  match (get_session timeout now st sid).1 with
  | none => []
  | some s => if limit = 0 then s.chat_history else pyTailSlice s.chat_history limit

/-- `hasattr(user_profile, key)` restricted to the dataclass fields that the
profile-update claim is about (method attributes of the dataclass carry no
session state). -/
def profileHasattr (key : String) : Bool :=
  key = "name" ∨ key = "home_location" ∨ key = "preferences" ∨
    key = "budget_range" ∨ key = "travel_style"

/-- `setattr(user_profile, key, value)` on a known field. -/
def profileSetattr (p : UserProfile) (key : String) (v : PValue) : UserProfile :=
  if key = "name" then { p with name := v }
  else if key = "home_location" then { p with home_location := v }
  else if key = "preferences" then { p with preferences := v }
  else if key = "budget_range" then { p with budget_range := v }
  else if key = "travel_style" then { p with travel_style := v }
  else p

/-- The update loop of `SessionManager.update_user_profile`: apply each entry
whose key is an existing attribute, silently skip the rest. -/
def applyProfileUpdates (p : UserProfile) (updates : List (String × PValue)) :
    UserProfile :=
  updates.foldl
    (fun p kv => if profileHasattr kv.1 then profileSetattr p kv.1 kv.2 else p) p

/-- `SessionManager.update_user_profile`: look the session up through
`get_session` (refreshing `last_activity`, raising — `none` — when unknown or
expired), then mutate its profile in place. -/
def update_user_profile (timeout now : Nat) (st : RegState) (sid : String)
    (updates : List (String × PValue)) : Option RegState :=
  match get_session timeout now st sid with
  | (none, _) => none
  | (some s, st') =>
      let p' := applyProfileUpdates s.user_profile updates
      let ss := st'.sessions.map
        (fun t => if t.session_id = sid then { t with user_profile := p' } else t)
      some { st' with sessions := ss }

/-! ## HTTP routes (`api/main.py`) -/

/-- Outcome of a route: 200 with a body, 404, or 500. -/
inductive ApiResult (α : Type) where
  | ok (body : α)
  | notFound
  | serverError
deriving DecidableEq, Repr

/-- `GET /api/sessions/{id}`: 404 when `get_session` returns nothing. -/
def api_get_session (timeout now : Nat) (st : RegState) (sid : String) :
    ApiResult SessionData × RegState :=
  match get_session timeout now st sid with
  | (none, st') => (.notFound, st')
  | (some s, st') => (.ok s, st')

/-- `PUT /api/sessions/{id}/profile`: `update_user_profile`'s `ValueError`
becomes a 404. -/
def api_update_profile (timeout now : Nat) (st : RegState) (sid : String)
    (updates : List (String × PValue)) : ApiResult Unit × RegState :=
  match update_user_profile timeout now st sid updates with
  | none => (.notFound, st)
  | some st' => (.ok (), st')

/-- The default of the `limit` query parameter (both the route and
`get_chat_history` default it to 50). -/
def DEFAULT_HISTORY_LIMIT : Int := 50

/-- `GET /api/sessions/{id}/history?limit=N`: always a 200 whose body is
whatever the manager returns; an absent `limit` is the default 50. -/
def api_get_chat_history (timeout now : Nat) (st : RegState) (sid : String)
    (limit : Option Int) : ApiResult (List HistoryMessage) :=
  .ok (get_chat_history timeout now st sid (limit.getD DEFAULT_HISTORY_LIMIT))

/-- The tool-role message `_invoke` appends for one tool call
(specification-side reading of `dispatchToolCall`). -/
def toolResultMsg (clients : List MCPClientModel) (tc : ToolCall) : Message :=
  mkToolMsg tc.id (toolResultText clients tc)

/-! ### Concrete data for witnesses and counterexamples -/

/-- First fragment of a tool call split across two chunks. -/
def demoFrag1 : DeltaToolCall :=
  { index := 0,
    id := some "call_1",
    function := some { name := some "map_search", arguments := some "query=Hang" } }

/-- Second fragment of the same tool call (same index, no id piece). -/
def demoFrag2 : DeltaToolCall :=
  { index := 0,
    function := some { name := some "_places", arguments := some "zhou" } }

def demoStream : List Delta :=
  [ { content := some "Plan" },
    { tool_calls := [demoFrag1] },
    { tool_calls := [demoFrag2] },
    { content := some "..." } ]

/-- The fully accumulated tool call of `demoStream`. -/
def demoToolCall : ToolCall :=
  { id := "call_1",
    function := { name := "map_search_places", arguments := "query=Hangzhou" } }

/-- The transcript/response pair `chatOnStream` produces on `demoStream`. -/
def demoOut : List Message × ChatResponse :=
  ([mkUserMsg "hi", mkAssistantMsg "Plan..." [demoToolCall]],
   { content := "Plan...", tool_calls := [demoToolCall] })

/-- A connector exposing one working weather tool. -/
def demoClient : MCPClientModel :=
  { toolNames := ["get_weather"], call := fun _ _ => .ok "sunny" }

/-- A connector whose tool invocation always raises. -/
def demoFailClient : MCPClientModel :=
  { toolNames := ["get_weather"], call := fun _ _ => .error "boom" }

def demoCallA : ToolCall :=
  { id := "id1", function := { name := "get_weather", arguments := "city=HZ" } }

def demoCallB : ToolCall :=
  { id := "id2", function := { name := "no_such_tool", arguments := "" } }

/-- A model response carrying two tool calls with distinct ids. -/
def demoResp : ChatResponse :=
  { content := "", tool_calls := [demoCallA, demoCallB] }

/-- A model response carrying no tool calls. -/
def demoRespDone : ChatResponse :=
  { content := "done", tool_calls := [] }

/-- A model oracle that always answers without tool calls. -/
def demoModel : List Message → ChatResponse :=
  fun _ => demoRespDone

/-- A session created at time 0 with the default profile. -/
def sessA : SessionData := newSessionData "s1" {} 0

/-- A registry holding exactly `sessA`, with no pending deletions. -/
def regA : RegState := { sessions := [sessA], pending := [] }

def histMsg : HistoryMessage := { role := "user", content := "m", timestamp := "" }

/-- A session whose chat history holds 51 messages. -/
def sessLongHist : SessionData :=
  { session_id := "s1", user_profile := {}, chat_history := List.replicate 51 histMsg,
    created_at := 0, last_activity := 0 }

/-- A registry holding exactly `sessLongHist`. -/
def regLongHist : RegState := { sessions := [sessLongHist], pending := [] }

/-- A profile update: one known key, one unknown key. -/
def demoUpdates : List (String × PValue) :=
  [("name", PValue.str "Alice"), ("unknown_key", PValue.str "x")]

/-- `sessA` after `demoUpdates` at time 5. -/
def demoUpdatedSess : SessionData :=
  { sessA with last_activity := 5,
               user_profile := { name := PValue.str "Alice" } }

/-- The registry `regA` after a profile update with `demoUpdates` at time 5. -/
def demoUpdatedReg : RegState :=
  { sessions := [demoUpdatedSess], pending := [] }

/-- The registry right after `create_session` at capacity 1 on `regA`
(new session inserted, eviction of "s1" scheduled but not yet run). -/
def regAfterCreate : RegState :=
  { sessions := [sessA, newSessionData "s2" {} 10], pending := ["s1"] }

/-! ## Helper lemmas -/

theorem strAppendTruthy_eq (s : String) (o : Option String) :
    strAppendTruthy s o = s ++ o.getD "" := by
  cases o with
  | none => simp [strAppendTruthy]
  | some t =>
      by_cases ht : t = ""
      · simp [strAppendTruthy, ht]
      · simp [strAppendTruthy, ht]

theorem set_concat_length {α : Type} (l : List α) (a b : α) :
    (l ++ [a]).set l.length b = l ++ [b] := by
  induction l with
  | nil => rfl
  | cons x xs ih => simp [List.set, ih]

theorem stepFrag_lt {tcs : List ToolCall} {f : DeltaToolCall}
    (h : f.index < tcs.length) :
    stepFrag tcs f =
      some (tcs.set f.index (applyFragTo (tcs.getD f.index blankToolCall) f)) := by
  have h' : ¬ tcs.length ≤ f.index := Nat.not_le.mpr h
  simp [stepFrag, h, h', List.getD_eq_getElem?_getD, List.getElem?_eq_getElem h]

theorem stepFrag_eqlen {tcs : List ToolCall} {f : DeltaToolCall}
    (h : f.index = tcs.length) :
    stepFrag tcs f = some (tcs ++ [applyFragTo blankToolCall f]) := by
  have h1 : tcs.length ≤ f.index := le_of_eq h.symm
  have h2 : f.index < (tcs ++ [blankToolCall]).length := by simp [h]
  have hget : (tcs ++ [blankToolCall])[f.index] = blankToolCall :=
    List.getElem_concat_length tcs blankToolCall f.index h h2
  have hset := set_concat_length tcs blankToolCall (applyFragTo blankToolCall f)
  simp [stepFrag, h1, h2, hget]
  refine ⟨by omega, ?_⟩
  simp [h, hset]

theorem stepFrag_gtlen {tcs : List ToolCall} {f : DeltaToolCall}
    (h : tcs.length < f.index) :
    stepFrag tcs f = none := by
  have h1 : tcs.length ≤ f.index := le_of_lt h
  have h2 : ¬ f.index < (tcs ++ [blankToolCall]).length := by
    simp only [List.length_append, List.length_cons, List.length_nil]
    omega
  simp [stepFrag, h1, h2]
  omega

theorem stepFrag_some {tcs tcs' : List ToolCall} {f : DeltaToolCall}
    (h : stepFrag tcs f = some tcs') :
    tcs.length ≤ tcs'.length ∧ f.index < tcs'.length ∧
    (∀ i, i < tcs'.length →
      tcs'.getD i blankToolCall =
        if i = f.index then applyFragTo (tcs.getD i blankToolCall) f
        else tcs.getD i blankToolCall) := by
  rcases Nat.lt_trichotomy f.index tcs.length with hlt | heq | hgt
  · rw [stepFrag_lt hlt] at h
    obtain rfl := Option.some.inj h
    refine ⟨by simp, by simp [hlt], ?_⟩
    intro i hi
    rw [List.getD_eq_getElem?_getD, List.getElem?_set]
    by_cases hif : i = f.index
    · subst hif
      rw [if_pos rfl, if_pos hlt]
      simp [List.getD_eq_getElem?_getD]
    · rw [if_neg (fun hh => hif hh.symm), if_neg hif, List.getD_eq_getElem?_getD]
  · rw [stepFrag_eqlen heq] at h
    obtain rfl := Option.some.inj h
    refine ⟨by simp, by simp [heq], ?_⟩
    intro i hi
    simp only [List.length_append, List.length_cons, List.length_nil] at hi
    rw [List.getD_eq_getElem?_getD, List.getElem?_append]
    by_cases hif : i = f.index
    · subst hif
      rw [if_neg (by omega), if_pos rfl]
      have hbase : tcs.getD f.index blankToolCall = blankToolCall :=
        List.getD_eq_default tcs blankToolCall (le_of_eq heq.symm)
      simp [heq, hbase]
    · have hi' : i < tcs.length := by omega
      rw [if_pos hi', if_neg hif, List.getD_eq_getElem?_getD]
  · rw [stepFrag_gtlen hgt] at h
    exact absurd h (by simp)

theorem foldFrags_some (frags : List DeltaToolCall) :
    ∀ (tcs tcs' : List ToolCall),
      frags.foldlM stepFrag tcs = some tcs' →
      tcs.length ≤ tcs'.length ∧
      (∀ i, i < tcs'.length →
        tcs'.getD i blankToolCall =
          (frags.filter (fun f => f.index = i)).foldl applyFragTo
            (tcs.getD i blankToolCall)) ∧
      (∀ i, tcs'.length ≤ i → frags.filter (fun f => f.index = i) = []) := by
  induction frags with
  | nil =>
      intro tcs tcs' h
      simp only [List.foldlM_nil] at h
      obtain rfl := Option.some.inj h
      exact ⟨le_rfl, fun i _ => by simp, fun i _ => by simp⟩
  | cons f rest ih =>
      intro tcs tcs' h
      rw [List.foldlM_cons] at h
      cases h1 : stepFrag tcs f with
      | none => simp [h1] at h
      | some tcs₁ =>
      simp only [h1, Option.bind_some] at h
      rename List.foldlM stepFrag tcs₁ rest = some tcs' => h2
      obtain ⟨hlen1, hidx1, hentry1⟩ := stepFrag_some h1
      obtain ⟨hlen2, hentry2, hempty2⟩ := ih tcs₁ tcs' h2
      refine ⟨le_trans hlen1 hlen2, ?_, ?_⟩
      · intro i hi
        rw [List.filter_cons]
        by_cases hfi : f.index = i
        · rw [if_pos (by simp [hfi]), List.foldl_cons]
          by_cases hi1 : i < tcs₁.length
          · rw [hentry2 i hi, hentry1 i hi1, if_pos hfi.symm]
          · exact absurd (hfi ▸ hidx1) hi1
        · rw [if_neg (by simp [hfi])]
          by_cases hi1 : i < tcs₁.length
          · rw [hentry2 i hi, hentry1 i hi1, if_neg (fun hh => hfi hh.symm)]
          · push_neg at hi1
            have hbase1 : tcs₁.getD i blankToolCall = blankToolCall :=
              List.getD_eq_default _ _ hi1
            have hbase : tcs.getD i blankToolCall = blankToolCall :=
              List.getD_eq_default _ _ (le_trans hlen1 hi1)
            rw [hentry2 i hi, hbase1, hbase]
      · intro i hi
        have hne : f.index ≠ i := by omega
        rw [List.filter_cons, if_neg (by simp [hne]), hempty2 i hi]

theorem foldDeltas_some (stream : List Delta) :
    ∀ (acc acc' : StreamAcc),
      stream.foldlM stepDelta acc = some acc' →
      acc'.content =
        stream.foldl (fun s d => strAppendTruthy s d.content) acc.content ∧
      (stream.flatMap Delta.tool_calls).foldlM stepFrag acc.tool_calls =
        some acc'.tool_calls := by
  induction stream with
  | nil =>
      intro acc acc' h
      simp only [List.foldlM_nil] at h
      obtain rfl := Option.some.inj h
      exact ⟨rfl, by simp⟩
  | cons d rest ih =>
      intro acc acc' h
      rw [List.foldlM_cons] at h
      cases h1 : stepDelta acc d with
      | none => simp [h1] at h
      | some acc₁ =>
      simp only [h1, Option.bind_some] at h
      rename List.foldlM stepDelta acc₁ rest = some acc' => h2
      have h1' : (d.tool_calls.foldlM stepFrag acc.tool_calls).bind
          (fun tcs => some { content := strAppendTruthy acc.content d.content,
                             tool_calls := tcs }) = some acc₁ := h1
      rw [Option.bind_eq_some] at h1'
      obtain ⟨tcs₁, hf, hpure⟩ := h1'
      obtain rfl := Option.some.inj hpure
      obtain ⟨hc, ht⟩ := ih _ acc' h2
      constructor
      · rw [List.foldl_cons]
        simpa using hc
      · rw [List.flatMap_cons, List.foldlM_append]
        simp only [hf, Option.bind_some]
        simpa using ht

/-- C3: in every streamed completion of the chat driver, tool-call fragments
sharing a position index are accumulated by concatenation in arrival order —
id, function name and argument text are appended to the existing partial
value, never overwritten — and the accumulated `(content, tool_calls)` pair
returned equals the assistant message appended to the transcript. -/
theorem tool_call_fragment_accumulation
    (messages : List Message) (prompt : String) (stream : List Delta)
    (out : List Message × ChatResponse)
    (h : chatOnStream messages prompt stream = some out) :
    out.1 = (if prompt = "" then messages else messages ++ [mkUserMsg prompt]) ++
        [mkAssistantMsg out.2.content out.2.tool_calls] ∧
    out.2.content = accContent stream ∧
    (∀ i, i < out.2.tool_calls.length →
      out.2.tool_calls.getD i blankToolCall = accToolCallAt stream i) ∧
    (∀ i, out.2.tool_calls.length ≤ i → fragsAt stream i = []) ∧
    (∀ tc f, (applyFragTo tc f).id = tc.id ++ f.id.getD "") ∧
    (∀ tc f fn, f.function = some fn →
      (applyFragTo tc f).function.name = tc.function.name ++ fn.name.getD "" ∧
      (applyFragTo tc f).function.arguments =
        tc.function.arguments ++ fn.arguments.getD "") := by
  have happly_id : ∀ (tc : ToolCall) (f : DeltaToolCall),
      (applyFragTo tc f).id = tc.id ++ f.id.getD "" := by
    intro tc f
    cases hfn : f.function <;> simp [applyFragTo, hfn, strAppendTruthy_eq]
  have happly_fn : ∀ (tc : ToolCall) (f : DeltaToolCall) (fn : DeltaFunction),
      f.function = some fn →
      (applyFragTo tc f).function.name = tc.function.name ++ fn.name.getD "" ∧
      (applyFragTo tc f).function.arguments =
        tc.function.arguments ++ fn.arguments.getD "" := by
    intro tc f fn hfn
    simp [applyFragTo, hfn, strAppendTruthy_eq]
  cases hacc : stream.foldlM stepDelta ({} : StreamAcc) with
  | none => simp [chatOnStream, hacc] at h
  | some acc =>
      have hout :
          ((if prompt = "" then messages else messages ++ [mkUserMsg prompt]) ++
              [mkAssistantMsg acc.content acc.tool_calls],
            ({ content := acc.content, tool_calls := acc.tool_calls } :
              ChatResponse)) = out := by
        have := h
        simp only [chatOnStream, hacc, Option.bind_some] at this
        exact Option.some.inj this
      obtain rfl := hout.symm
      obtain ⟨hc, ht⟩ := foldDeltas_some stream _ acc hacc
      obtain ⟨-, hentry, hempty⟩ :=
        foldFrags_some (stream.flatMap Delta.tool_calls) _ acc.tool_calls ht
      refine ⟨rfl, ?_, ?_, ?_, happly_id, happly_fn⟩
      · simpa [accContent] using hc
      · intro i hi
        have := hentry i hi
        simpa [accToolCallAt, fragsAt] using this
      · intro i hi
        have := hempty i hi
        simpa [fragsAt] using this

theorem tool_call_fragment_accumulation_witness :
    chatOnStream [] "hi" demoStream = some demoOut ∧
    demoOut.2.tool_calls.getD 0 blankToolCall = accToolCallAt demoStream 0 ∧
    demoOut.2.content = accContent demoStream := by
  have hmain :=
    tool_call_fragment_accumulation [] "hi" demoStream demoOut (by rfl)
  exact ⟨by rfl, hmain.2.2.1 0 (by decide), hmain.2.1⟩

/-! ## Planning-loop lemmas -/

theorem dispatchToolCall_eq (clients : List MCPClientModel)
    (msgs : List Message) (tc : ToolCall) :
    dispatchToolCall clients msgs tc = msgs ++ [toolResultMsg clients tc] := by
  unfold dispatchToolCall toolResultMsg toolResultText append_tool_result
  cases h1 : findTargetClient clients tc.function.name with
  | none => simp
  | some c =>
      cases h2 : c.call tc.function.name tc.function.arguments with
      | ok r => simp [h2]
      | error e => simp [h2]

theorem dispatchToolCalls_eq (clients : List MCPClientModel)
    (tcs : List ToolCall) :
    ∀ msgs, dispatchToolCalls clients msgs tcs =
      msgs ++ tcs.map (toolResultMsg clients) := by
  induction tcs with
  | nil => intro msgs; simp [dispatchToolCalls]
  | cons tc rest ih =>
      intro msgs
      have step : dispatchToolCalls clients msgs (tc :: rest) =
          dispatchToolCalls clients (dispatchToolCall clients msgs tc) rest := by
        simp [dispatchToolCalls]
      rw [step, ih, dispatchToolCall_eq]
      simp

theorem chatStep_ok_total (model : List Message → ChatResponse)
    (msgs : List Message) :
    chatStep (fun m => .ok (model m)) msgs "" =
      .ok (msgs ++ [mkAssistantMsg (model msgs).content (model msgs).tool_calls],
           model msgs) := by
  simp [chatStep]

theorem chatStep_error (model : List Message → Except String ChatResponse)
    (msgs : List Message) (prompt : String) (e : String)
    (h : chatStep model msgs prompt = .error e) :
    ∃ ts, model ts = .error e := by
  simp only [chatStep] at h
  cases hm : model (if prompt = "" then msgs else msgs ++ [mkUserMsg prompt]) with
  | error e' =>
      rw [hm] at h
      simp only [Except.error.injEq] at h
      exact ⟨_, by rw [hm, h]⟩
  | ok resp =>
      rw [hm] at h
      simp at h

/-! ## Claim theorems -/

/-- C8: the transcript-clearing operation of the chat driver leaves exactly
the system-role messages, in their original order (a sublist of the
transcript with unchanged multiplicities), and removes every message of any
other role. -/
theorem clear_messages_keeps_exactly_system (msgs : List Message) :
    (∀ m ∈ clear_messages msgs, m.role = .system) ∧
    (clear_messages msgs).Sublist msgs ∧
    (∀ m : Message, m.role = .system →
      (clear_messages msgs).count m = msgs.count m) ∧
    (∀ m : Message, m.role ≠ .system → (clear_messages msgs).count m = 0) := by
  refine ⟨?_, List.filter_sublist msgs, ?_, ?_⟩
  · intro m hm
    simpa using List.of_mem_filter hm
  · intro m hm
    exact List.count_filter (by simpa using hm)
  · intro m hm
    rw [List.count_eq_zero]
    intro hmem
    exact hm (by simpa using List.of_mem_filter hmem)

theorem clear_messages_keeps_exactly_system_witness :
    clear_messages [mkUserMsg "hi", { role := .system, content := "sys" },
        mkAssistantMsg "a" []] = [{ role := .system, content := "sys" }] ∧
    (clear_messages [mkUserMsg "hi", { role := .system, content := "sys" },
        mkAssistantMsg "a" []]).count (mkUserMsg "hi") = 0 := by
  refine ⟨by rfl, ?_⟩
  exact (clear_messages_keeps_exactly_system
    [mkUserMsg "hi", { role := .system, content := "sys" },
      mkAssistantMsg "a" []]).2.2.2 (mkUserMsg "hi") (by decide)

/-- C1: for an assistant response carrying tool calls, the planning loop
appends exactly one tool-role message per tool call — carrying that call's
id, in the order the calls were received (with distinct ids, exactly one
result message per id) — and the next model call of the cycle is issued on
precisely that extended transcript. -/
theorem one_tool_message_per_call
    (clients : List MCPClientModel) (model : List Message → ChatResponse)
    (msgs : List Message) (resp : ChatResponse) :
    dispatchToolCalls clients msgs resp.tool_calls =
      msgs ++ resp.tool_calls.map (toolResultMsg clients) ∧
    ((resp.tool_calls.map ToolCall.id).Nodup →
      ∀ tc ∈ resp.tool_calls,
        (resp.tool_calls.map (toolResultMsg clients)).countP
          (fun m => m.tool_call_id = some tc.id) = 1) ∧
    invokeCycle clients model (msgs, resp) =
      (msgs ++ resp.tool_calls.map (toolResultMsg clients) ++
         [mkAssistantMsg
            (model (msgs ++ resp.tool_calls.map (toolResultMsg clients))).content
            (model (msgs ++ resp.tool_calls.map (toolResultMsg clients))).tool_calls],
       model (msgs ++ resp.tool_calls.map (toolResultMsg clients))) := by
  have hdisp := dispatchToolCalls_eq clients resp.tool_calls msgs
  refine ⟨hdisp, ?_, ?_⟩
  · intro hnodup tc htc
    rw [List.countP_map]
    have hpred : ((fun m : Message => decide (m.tool_call_id = some tc.id)) ∘
        toolResultMsg clients) = fun tc' => decide (tc'.id = tc.id) := by
      funext tc'
      simp [toolResultMsg, mkToolMsg, Function.comp]
    rw [hpred]
    have hmem : tc.id ∈ resp.tool_calls.map ToolCall.id :=
      List.mem_map_of_mem ToolCall.id htc
    have hcount' : (resp.tool_calls.map ToolCall.id).countP
        (fun x => x == tc.id) = 1 := List.count_eq_one_of_mem hnodup hmem
    rw [List.countP_map] at hcount'
    have hpe : ((fun x : String => x == tc.id) ∘ ToolCall.id) =
        (fun tc' : ToolCall => decide (tc'.id = tc.id)) := by
      funext tc'
      by_cases h : tc'.id = tc.id <;> simp [Function.comp, h]
    rw [hpe] at hcount'
    exact hcount' 
  · simp only [invokeCycle, hdisp]

theorem one_tool_message_per_call_witness :
    dispatchToolCalls [demoClient] [] demoResp.tool_calls =
      [mkToolMsg "id1" "sunny", mkToolMsg "id2" "工具未找到"] ∧
    (demoResp.tool_calls.map (toolResultMsg [demoClient])).countP
      (fun m => m.tool_call_id = some demoCallA.id) = 1 := by
  have hmain := one_tool_message_per_call [demoClient] demoModel [] demoResp
  refine ⟨by rfl, ?_⟩
  exact hmain.2.1 (by decide) demoCallA (by simp [demoResp])

/-- C2: a dispatched tool call whose function name is in no connector's
catalog yields a `工具未找到` result under that call's id; one whose
invocation raises yields a human-readable failure string under that call's
id; dispatching is total (no exception escapes), and every outcome the loop
produces is either a final answer or an error returned by the model call
itself. -/
theorem tool_failure_never_escapes
    (clients : List MCPClientModel) (msgs : List Message) (tc : ToolCall) :
    (findTargetClient clients tc.function.name = none →
      dispatchToolCall clients msgs tc =
        msgs ++ [mkToolMsg tc.id "工具未找到"]) ∧
    (∀ c e, findTargetClient clients tc.function.name = some c →
      c.call tc.function.name tc.function.arguments = .error e →
      dispatchToolCall clients msgs tc =
        msgs ++ [mkToolMsg tc.id ("工具调用失败: " ++ e)]) ∧
    (∀ (model : List Message → Except String ChatResponse) (fuel : Nat)
        (start : List Message) (resp : ChatResponse) (out : InvokeResult),
      invokeLoop clients model fuel start resp = some out →
      (∃ a, out = .answer a) ∨
      (∃ e ts, out = .upstream e ∧ model ts = .error e)) := by
  refine ⟨?_, ?_, ?_⟩
  · intro hnone
    unfold dispatchToolCall append_tool_result
    simp only [hnone]
  · intro c e hc he
    unfold dispatchToolCall append_tool_result
    simp only [hc, he]
  · intro model fuel
    induction fuel with
    | zero => intro start resp out h; exact absurd h (by simp [invokeLoop])
    | succ n ih =>
        intro start resp out h
        unfold invokeLoop at h
        cases htc : resp.tool_calls with
        | nil =>
            rw [htc] at h
            exact Or.inl ⟨resp.content, (Option.some.inj h).symm⟩
        | cons t ts =>
            rw [htc] at h
            cases hcs : chatStep model
                (dispatchToolCalls clients start (t :: ts)) "" with
            | error e =>
                rw [hcs] at h
                obtain ⟨ts', hts'⟩ := chatStep_error _ _ _ _ hcs
                exact Or.inr ⟨e, ts', (Option.some.inj h).symm, hts'⟩
            | ok p =>
                rw [hcs] at h
                exact ih p.1 p.2 out h

theorem tool_failure_never_escapes_witness :
    dispatchToolCall [] [] demoCallB = [mkToolMsg "id2" "工具未找到"] ∧
    dispatchToolCall [demoFailClient] [] demoCallA =
      [mkToolMsg "id1" ("工具调用失败: " ++ "boom")] ∧
    ((∃ a, InvokeResult.answer "done" = InvokeResult.answer a) ∨
      (∃ e ts, InvokeResult.answer "done" = InvokeResult.upstream e ∧
        (fun _ : List Message =>
          (Except.ok demoRespDone : Except String ChatResponse)) ts =
            Except.error e)) := by
  have h1 := (tool_failure_never_escapes [] [] demoCallB).1 (by rfl)
  have h2 := (tool_failure_never_escapes [demoFailClient] [] demoCallA).2.1
    demoFailClient "boom" (by rfl) (by rfl)
  have h3 := (tool_failure_never_escapes [] [] demoCallB).2.2
    (fun _ => .ok demoRespDone) 1 [] demoRespDone (.answer "done") (by rfl)
  exact ⟨by simpa using h1, by simpa using h2, h3⟩

/-- C7: the planning loop's cycle ends exactly when a model response carries
no tool calls, returning that response's content; the loop imposes no hard
cycle bound — for any amount of fuel it has finished within that fuel iff
some iterate of the cycle yields a response without tool calls, so it
terminates for precisely the executions in which the model eventually emits
such a response. -/
theorem loop_ends_iff_no_tool_calls
    (clients : List MCPClientModel) (model : List Message → ChatResponse)
    (fuel : Nat) (msgs : List Message) (resp : ChatResponse) :
    (resp.tool_calls = [] →
      invokeLoop clients (fun m => .ok (model m)) (fuel + 1) msgs resp =
        some (.answer resp.content)) ∧
    ((invokeLoop clients (fun m => .ok (model m)) fuel msgs resp).isSome ↔
      ∃ n, n < fuel ∧
        ((invokeCycle clients model)^[n] (msgs, resp)).2.tool_calls = []) := by
  constructor
  · intro hnil
    unfold invokeLoop
    rw [hnil]
  · induction fuel generalizing msgs resp with
    | zero =>
        simp [invokeLoop]
    | succ n ih =>
        cases htc : resp.tool_calls with
        | nil =>
            constructor
            · intro _
              exact ⟨0, Nat.succ_pos n, by simpa using htc⟩
            · intro _
              unfold invokeLoop
              rw [htc]
              simp
        | cons t ts =>
            have hstep :
                invokeLoop clients (fun m => .ok (model m)) (n + 1) msgs resp =
                  invokeLoop clients (fun m => .ok (model m)) n
                    (invokeCycle clients model (msgs, resp)).1
                    (invokeCycle clients model (msgs, resp)).2 := by
              conv_lhs => rw [invokeLoop]
              rw [htc, chatStep_ok_total]
              simp [invokeCycle, htc]
            rw [hstep]
            rw [ih]
            constructor
            · rintro ⟨k, hk, hcyc⟩
              refine ⟨k + 1, by omega, ?_⟩
              rw [Function.iterate_succ_apply]
              exact hcyc
            · rintro ⟨k, hk, hcyc⟩
              cases k with
              | zero => simp [htc] at hcyc
              | succ k' =>
                  refine ⟨k', by omega, ?_⟩
                  rw [Function.iterate_succ_apply] at hcyc
                  exact hcyc

theorem loop_ends_iff_no_tool_calls_witness :
    invokeLoop [demoClient] (fun m => .ok (demoModel m)) 1 [] demoRespDone =
      some (.answer "done") ∧
    ((invokeLoop [demoClient] (fun m => .ok (demoModel m)) 1 []
        demoRespDone).isSome ↔
      ∃ n, n < 1 ∧
        ((invokeCycle [demoClient] demoModel)^[n]
          ([], demoRespDone)).2.tool_calls = []) := by
  have hmain := loop_ends_iff_no_tool_calls [demoClient] demoModel 0 [] demoRespDone
  have hmain1 := loop_ends_iff_no_tool_calls [demoClient] demoModel 1 [] demoRespDone
  exact ⟨hmain.1 (by rfl), hmain1.2⟩

/-! ## Session-registry lemmas -/

theorem mem_foldl_delete {pend : List String} :
    ∀ {ss : List SessionData} {x : SessionData},
      x ∈ pend.foldl (fun ss sid => delete_session sid ss) ss →
      x ∈ ss ∧ ∀ p ∈ pend, x.session_id ≠ p := by
  induction pend with
  | nil =>
      intro ss x hx
      exact ⟨by simpa using hx, by simp⟩
  | cons p rest ih =>
      intro ss x hx
      rw [List.foldl_cons] at hx
      obtain ⟨hmem, hrest⟩ := ih hx
      have hdel : x ∈ ss ∧ x.session_id ≠ p := by
        have := List.mem_filter.mp hmem
        simpa [delete_session] using this
      refine ⟨hdel.1, ?_⟩
      intro q hq
      rcases List.mem_cons.mp hq with rfl | hq'
      · exact hdel.2
      · exact hrest q hq'

theorem get_session_found (timeout now : Nat) (st : RegState) (sid : String)
    (s : SessionData)
    (hfind : st.sessions.find? (fun t => t.session_id = sid) = some s)
    (hexp : is_expired timeout now s = false) :
    get_session timeout now st sid =
      (some { s with last_activity := now },
       { st with
           sessions := st.sessions.map (fun t =>
               if t.session_id = sid then { s with last_activity := now }
               else t) }) := by
  simp [get_session, hfind, hexp]

/-- C5: `get_session` on a present-but-expired id returns "not found"
(scheduling deletion), and — with a non-decreasing clock — a repeated get on
the same id still returns "not found", whether or not the scheduled deletion
has run (idempotent expiry); on a present, non-expired id it returns the
session with `last_activity` refreshed to `now`. -/
theorem get_session_expiry_idempotent
    (timeout now now' : Nat) (st : RegState) (sid : String) (s : SessionData) :
    (st.sessions.find? (fun t => t.session_id = sid) = some s →
      is_expired timeout now s = true →
      (get_session timeout now st sid).1 = none ∧
      (now ≤ now' →
        (get_session timeout now' (get_session timeout now st sid).2 sid).1 =
          none ∧
        (get_session timeout now'
          (runPending (get_session timeout now st sid).2) sid).1 = none)) ∧
    (st.sessions.find? (fun t => t.session_id = sid) = some s →
      is_expired timeout now s = false →
      (get_session timeout now st sid).1 =
        some { s with last_activity := now }) := by
  constructor
  · intro hfind hexp
    have hfst : get_session timeout now st sid =
        (none, { st with pending := st.pending ++ [sid] }) := by
      simp [get_session, hfind, hexp]
    refine ⟨by rw [hfst], ?_⟩
    intro hle
    have hexp' : is_expired timeout now' s = true := by
      simp only [is_expired, decide_eq_true_eq] at hexp ⊢
      have := Nat.sub_le_sub_right hle s.last_activity
      omega
    constructor
    · rw [hfst]
      simp [get_session, hfind, hexp']
    · rw [hfst]
      have hnone :
          ((runPending { st with pending := st.pending ++ [sid] }).sessions.find?
            (fun t => t.session_id = sid)) = none := by
        rw [List.find?_eq_none]
        intro x hx
        have := mem_foldl_delete hx
        have hne := this.2 sid (by simp)
        simpa using hne
      simp [get_session, hnone]
  · intro hfind hexp
    rw [get_session_found timeout now st sid s hfind hexp]

theorem get_session_expiry_idempotent_witness :
    (get_session 10 20 regA "s1").1 = none ∧
    (get_session 10 30 (get_session 10 20 regA "s1").2 "s1").1 = none ∧
    (get_session 10 30 (runPending (get_session 10 20 regA "s1").2) "s1").1 =
      none ∧
    (get_session 10 5 regA "s1").1 = some { sessA with last_activity := 5 } := by
  have hexpired := (get_session_expiry_idempotent 10 20 30 regA "s1" sessA).1
    (by rfl) (by decide)
  have hfresh := (get_session_expiry_idempotent 10 5 0 regA "s1" sessA).2
    (by rfl) (by decide)
  exact ⟨hexpired.1, (hexpired.2 (by omega)).1, (hexpired.2 (by omega)).2,
    hfresh⟩

/-- C6 counterexample: on a session holding 51 messages, fetching with the
`limit` parameter absent (the route and the manager default it to 50)
returns only the most recent 50 messages, not the full history. -/
theorem history_absent_limit_counterexample :
    api_get_chat_history 100 0 regLongHist "s1" none =
      .ok (List.replicate 50 histMsg) ∧
    sessLongHist.chat_history = List.replicate 51 histMsg ∧
    ¬ (List.replicate 50 histMsg = List.replicate 51 histMsg) := by
  refine ⟨by rfl, by rfl, ?_⟩
  intro h
  have hlen := congrArg List.length h
  simp at hlen

/-- C6 amended: fetching an N-message history with `limit=N` returns exactly
those N messages in order, and `limit=0` returns the full history; an absent
`limit` defaults to 50, returning only the most recent 50 messages (the full
history exactly when it has at most 50 entries). -/
theorem chat_history_roundtrip
    (timeout now : Nat) (st : RegState) (sid : String) (s : SessionData)
    (hfind : st.sessions.find? (fun t => t.session_id = sid) = some s)
    (hexp : is_expired timeout now s = false) :
    get_chat_history timeout now st sid (s.chat_history.length : Int) =
      s.chat_history ∧
    get_chat_history timeout now st sid 0 = s.chat_history ∧
    api_get_chat_history timeout now st sid none =
      .ok (s.chat_history.drop (s.chat_history.length - 50)) := by
  have hget : (get_session timeout now st sid).1 =
      some { s with last_activity := now } := by
    rw [get_session_found timeout now st sid s hfind hexp]
  refine ⟨?_, ?_, ?_⟩
  · by_cases hn : s.chat_history.length = 0
    · simp [get_chat_history, hget, hn, List.length_eq_zero.mp hn]
    · have hne : (s.chat_history.length : Int) ≠ 0 := by
        simpa using hn
      simp [get_chat_history, hget, hne, pyTailSlice]
  · simp [get_chat_history, hget]
  · have h50 : (DEFAULT_HISTORY_LIMIT : Int) ≠ 0 := by decide
    simp [api_get_chat_history, get_chat_history, hget, h50, pyTailSlice,
      DEFAULT_HISTORY_LIMIT]

theorem chat_history_roundtrip_witness :
    get_chat_history 100 0 regLongHist "s1"
      (sessLongHist.chat_history.length : Int) = sessLongHist.chat_history ∧
    get_chat_history 100 0 regLongHist "s1" 0 = sessLongHist.chat_history ∧
    api_get_chat_history 100 0 regLongHist "s1" none =
      .ok (sessLongHist.chat_history.drop
        (sessLongHist.chat_history.length - 50)) := by
  exact chat_history_roundtrip 100 0 regLongHist "s1" sessLongHist
    (by rfl) (by decide)

/-- C9: fetching chat history for a session id that is unknown or expired
answers 200 with `[]` rather than a 404, unlike the other per-session
operations (session detail, profile update) which answer 404 for that id. -/
theorem history_unknown_id_empty
    (timeout now : Nat) (st : RegState) (sid : String)
    (h : (get_session timeout now st sid).1 = none) :
    (∀ limit, api_get_chat_history timeout now st sid limit = .ok []) ∧
    (api_get_session timeout now st sid).1 = .notFound ∧
    (∀ updates, (api_update_profile timeout now st sid updates).1 =
      .notFound) := by
  have hpair : get_session timeout now st sid =
      (none, (get_session timeout now st sid).2) := by
    rw [← h]
  refine ⟨?_, ?_, ?_⟩
  · intro limit
    simp [api_get_chat_history, get_chat_history, h]
  · unfold api_get_session
    rw [hpair]
  · intro updates
    unfold api_update_profile update_user_profile
    rw [hpair]

theorem history_unknown_id_empty_witness :
    api_get_chat_history 100 0 regA "nope" (some 5) = .ok [] ∧
    (api_get_session 100 0 regA "nope").1 = .notFound ∧
    (api_update_profile 100 0 regA "nope" []).1 = .notFound := by
  have hmain := history_unknown_id_empty 100 0 regA "nope" (by rfl)
  exact ⟨hmain.1 (some 5), hmain.2.1, hmain.2.2 []⟩

theorem profileSetattr_frame (p : UserProfile) (k : String) (v : PValue) :
    (k ≠ "name" → (profileSetattr p k v).name = p.name) ∧
    (k ≠ "home_location" →
      (profileSetattr p k v).home_location = p.home_location) ∧
    (k ≠ "preferences" → (profileSetattr p k v).preferences = p.preferences) ∧
    (k ≠ "budget_range" →
      (profileSetattr p k v).budget_range = p.budget_range) ∧
    (k ≠ "travel_style" →
      (profileSetattr p k v).travel_style = p.travel_style) := by
  unfold profileSetattr
  by_cases h1 : k = "name" <;> by_cases h2 : k = "home_location" <;>
    by_cases h3 : k = "preferences" <;> by_cases h4 : k = "budget_range" <;>
    by_cases h5 : k = "travel_style" <;> simp_all

theorem applyProfileUpdates_unknown_key (p : UserProfile) (k : String)
    (v : PValue) (rest : List (String × PValue))
    (h : profileHasattr k = false) :
    applyProfileUpdates p ((k, v) :: rest) = applyProfileUpdates p rest := by
  simp [applyProfileUpdates, h]

theorem applyProfileUpdates_frame (updates : List (String × PValue)) :
    ∀ p : UserProfile,
      ((∀ kv ∈ updates, kv.1 ≠ "name") →
        (applyProfileUpdates p updates).name = p.name) ∧
      ((∀ kv ∈ updates, kv.1 ≠ "home_location") →
        (applyProfileUpdates p updates).home_location = p.home_location) ∧
      ((∀ kv ∈ updates, kv.1 ≠ "preferences") →
        (applyProfileUpdates p updates).preferences = p.preferences) ∧
      ((∀ kv ∈ updates, kv.1 ≠ "budget_range") →
        (applyProfileUpdates p updates).budget_range = p.budget_range) ∧
      ((∀ kv ∈ updates, kv.1 ≠ "travel_style") →
        (applyProfileUpdates p updates).travel_style = p.travel_style) := by
  induction updates with
  | nil => intro p; simp [applyProfileUpdates]
  | cons kv rest ih =>
      intro p
      have hstep : applyProfileUpdates p (kv :: rest) =
          applyProfileUpdates
            (if profileHasattr kv.1 then profileSetattr p kv.1 kv.2 else p)
            rest := by
        simp [applyProfileUpdates]
      rw [hstep]
      obtain ⟨f1, f2, f3, f4, f5⟩ :=
        ih (if profileHasattr kv.1 then profileSetattr p kv.1 kv.2 else p)
      obtain ⟨g1, g2, g3, g4, g5⟩ := profileSetattr_frame p kv.1 kv.2
      refine ⟨?_, ?_, ?_, ?_, ?_⟩ <;> intro hall
      · rw [f1 (fun x hx => hall x (List.mem_cons_of_mem _ hx))]
        by_cases hh : profileHasattr kv.1
        · simp only [hh, if_true]
          exact g1 (hall kv (List.mem_cons_self _ _))
        · simp [hh]
      · rw [f2 (fun x hx => hall x (List.mem_cons_of_mem _ hx))]
        by_cases hh : profileHasattr kv.1
        · simp only [hh, if_true]
          exact g2 (hall kv (List.mem_cons_self _ _))
        · simp [hh]
      · rw [f3 (fun x hx => hall x (List.mem_cons_of_mem _ hx))]
        by_cases hh : profileHasattr kv.1
        · simp only [hh, if_true]
          exact g3 (hall kv (List.mem_cons_self _ _))
        · simp [hh]
      · rw [f4 (fun x hx => hall x (List.mem_cons_of_mem _ hx))]
        by_cases hh : profileHasattr kv.1
        · simp only [hh, if_true]
          exact g4 (hall kv (List.mem_cons_self _ _))
        · simp [hh]
      · rw [f5 (fun x hx => hall x (List.mem_cons_of_mem _ hx))]
        by_cases hh : profileHasattr kv.1
        · simp only [hh, if_true]
          exact g5 (hall kv (List.mem_cons_self _ _))
        · simp [hh]

/-- C10 counterexample: a profile update on an existing session changes more
than the profile — it refreshes the session's `last_activity` timestamp
(through the `get_session` lookup), so "all other session state (history,
status, timestamps) is left unchanged" fails at this input. -/
theorem profile_update_timestamp_counterexample :
    sessA.last_activity = 0 ∧
    (update_user_profile 100 5 regA "s1" []).map
      (fun st => st.sessions.map SessionData.last_activity) = some [5] ∧
    ¬ ((5 : Nat) = 0) := by
  exact ⟨rfl, by rfl, by decide⟩

/-- C10 amended: for a profile-update request on an existing (non-expired)
session, only entries whose key names an existing `UserProfile` attribute are
applied and entries with unknown keys are silently ignored; every profile
field not named by an applied entry is unchanged, the session's history,
status, creation time and all other sessions are unchanged, and the
session's `last_activity` is refreshed to the lookup time (as every
successful get does). -/
theorem profile_update_frame
    (timeout now : Nat) (st : RegState) (sid : String) (s : SessionData)
    (updates : List (String × PValue)) (st' : RegState)
    (hfind : st.sessions.find? (fun t => t.session_id = sid) = some s)
    (hexp : is_expired timeout now s = false)
    (hupd : update_user_profile timeout now st sid updates = some st') :
    st'.sessions = st.sessions.map (fun t =>
      if t.session_id = sid then
        { s with
            last_activity := now,
            user_profile := applyProfileUpdates s.user_profile updates }
      else t) ∧
    st'.pending = st.pending ∧
    (∀ k v rest, profileHasattr k = false →
      applyProfileUpdates s.user_profile ((k, v) :: rest) =
        applyProfileUpdates s.user_profile rest) ∧
    ((∀ kv ∈ updates, kv.1 ≠ "name") →
      (applyProfileUpdates s.user_profile updates).name =
        s.user_profile.name) ∧
    ((∀ kv ∈ updates, kv.1 ≠ "home_location") →
      (applyProfileUpdates s.user_profile updates).home_location =
        s.user_profile.home_location) ∧
    ((∀ kv ∈ updates, kv.1 ≠ "preferences") →
      (applyProfileUpdates s.user_profile updates).preferences =
        s.user_profile.preferences) ∧
    ((∀ kv ∈ updates, kv.1 ≠ "budget_range") →
      (applyProfileUpdates s.user_profile updates).budget_range =
        s.user_profile.budget_range) ∧
    ((∀ kv ∈ updates, kv.1 ≠ "travel_style") →
      (applyProfileUpdates s.user_profile updates).travel_style =
        s.user_profile.travel_style) := by
  have hsid : s.session_id = sid := by
    have := List.find?_some hfind
    simpa using this
  have hget := get_session_found timeout now st sid s hfind hexp
  unfold update_user_profile at hupd
  rw [hget] at hupd
  dsimp only at hupd
  obtain rfl := Option.some.inj hupd
  obtain ⟨f1, f2, f3, f4, f5⟩ := applyProfileUpdates_frame updates s.user_profile
  refine ⟨?_, rfl, ?_, f1, f2, f3, f4, f5⟩
  · simp only [List.map_map]
    refine congrArg (fun F => List.map F st.sessions) ?_
    funext t
    by_cases ht : t.session_id = sid
    · simp [Function.comp, ht, hsid]
    · simp [Function.comp, ht]
  · intro k v rest hk
    exact applyProfileUpdates_unknown_key _ _ _ _ hk

theorem profile_update_frame_witness :
    update_user_profile 100 5 regA "s1" demoUpdates = some demoUpdatedReg ∧
    demoUpdatedReg.sessions = regA.sessions.map (fun t =>
      if t.session_id = "s1" then
        { sessA with
            last_activity := 5,
            user_profile := applyProfileUpdates sessA.user_profile demoUpdates }
      else t) ∧
    (applyProfileUpdates sessA.user_profile demoUpdates).preferences =
      sessA.user_profile.preferences := by
  have hmain := profile_update_frame 100 5 regA "s1" sessA demoUpdates
    demoUpdatedReg (by rfl) (by decide) (by rfl)
  exact ⟨by rfl, hmain.1, hmain.2.2.2.2.2.1 (by decide)⟩

theorem oldestSession_go (ss : List SessionData) :
    ∀ (acc : Option SessionData) (o : SessionData),
      ss.foldl
        (fun acc s =>
          match acc with
          | none => some s
          | some b => if s.last_activity < b.last_activity then some s
                      else some b) acc = some o →
      (acc = some o ∨ o ∈ ss) ∧
      (∀ t ∈ ss, o.last_activity ≤ t.last_activity) ∧
      (∀ b, acc = some b → o.last_activity ≤ b.last_activity) := by
  induction ss with
  | nil =>
      intro acc o h
      simp only [List.foldl_nil] at h
      exact ⟨Or.inl h, by simp, fun b hb => by rw [h] at hb; simp_all⟩
  | cons s rest ih =>
      intro acc o h
      rw [List.foldl_cons] at h
      obtain ⟨hmem, hmin, hacc⟩ := ih _ o h
      have hstep : ∀ b', (match acc with
          | none => some s
          | some b => if s.last_activity < b.last_activity then some s
                      else some b) = some b' →
          b'.last_activity ≤ s.last_activity ∧
          (b' = s ∨ acc = some b') ∧
          (∀ b, acc = some b → b'.last_activity ≤ b.last_activity) := by
        intro b' hb'
        cases hcc : acc with
        | none =>
            rw [hcc] at hb'
            simp only [Option.some.injEq] at hb'
            subst hb'
            exact ⟨le_rfl, Or.inl rfl, fun b hb => by simp_all⟩
        | some b =>
            rw [hcc] at hb'
            dsimp only at hb'
            by_cases hlt : s.last_activity < b.last_activity
            · rw [if_pos hlt] at hb'
              simp only [Option.some.injEq] at hb'
              subst hb'
              exact ⟨le_rfl, Or.inl rfl,
                fun c hc => by
                  obtain rfl : b = c := Option.some.inj hc
                  exact le_of_lt hlt⟩
            · rw [if_neg hlt] at hb'
              simp only [Option.some.injEq] at hb'
              subst hb'
              push_neg at hlt
              exact ⟨hlt, Or.inr rfl,
                fun c hc => by
                  obtain rfl : b = c := Option.some.inj hc
                  exact le_rfl⟩
      obtain ⟨b', hb'⟩ : ∃ b', (match acc with
          | none => some s
          | some b => if s.last_activity < b.last_activity then some s
                      else some b) = some b' := by
        cases acc with
        | none => exact ⟨s, rfl⟩
        | some b =>
            by_cases hlt : s.last_activity < b.last_activity
            · exact ⟨s, by dsimp only; rw [if_pos hlt]⟩
            · exact ⟨b, by dsimp only; rw [if_neg hlt]⟩
      obtain ⟨hb's, hb'mem, hb'acc⟩ := hstep b' hb'
      have hob' : o.last_activity ≤ b'.last_activity := hacc b' hb'
      refine ⟨?_, ?_, ?_⟩
      · rcases hmem with hmem | hmem
        · rw [hb'] at hmem
          simp only [Option.some.injEq] at hmem
          subst hmem
          rcases hb'mem with rfl | hA
          · exact Or.inr (List.mem_cons_self _ _)
          · exact Or.inl hA
        · exact Or.inr (List.mem_cons_of_mem _ hmem)
      · intro t ht
        rcases List.mem_cons.mp ht with rfl | ht'
        · exact le_trans hob' hb's
        · exact hmin t ht'
      · intro b hb
        exact le_trans hob' (hb'acc b hb)

theorem oldestSession_spec (ss : List SessionData) (o : SessionData)
    (h : oldestSession ss = some o) :
    o ∈ ss ∧ ∀ t ∈ ss, o.last_activity ≤ t.last_activity := by
  obtain ⟨hmem, hmin, -⟩ := oldestSession_go ss none o h
  rcases hmem with hmem | hmem
  · simp at hmem
  · exact ⟨hmem, hmin⟩

/-- C4 counterexample: creating a session at capacity (here capacity 1)
schedules the eviction as a deferred task and inserts the new session
immediately, so right after `create_session` returns — a reachable registry
state, observable through the health endpoint — the count is 2 > 1. -/
theorem capacity_exceeded_counterexample :
    create_session 1 "s2" {} 10 regA = some regAfterCreate ∧
    regAfterCreate.sessions.length = 2 ∧
    ¬ (regAfterCreate.sessions.length ≤ 1) := by
  exact ⟨by rfl, by rfl, by decide⟩

/-- C4 corrected: `create_session` at capacity only schedules the eviction
(`asyncio.create_task` is deferred), so the registry transiently holds
capacity + 1 sessions; once the scheduled deletion task has run, the count is
again within capacity, and the session scheduled for eviction is exactly one
with the smallest last-activity timestamp. -/
theorem capacity_after_eviction
    (maxSessions : Nat) (sid : String) (profile : UserProfile) (now : Nat)
    (st st' : RegState)
    (hpend : st.pending = [])
    (hlen : st.sessions.length ≤ maxSessions)
    (hc : create_session maxSessions sid profile now st = some st') :
    (runPending st').sessions.length ≤ maxSessions ∧
    (maxSessions ≤ st.sessions.length →
      st'.sessions.length = maxSessions + 1 ∧
      ∃ o, oldestSession st.sessions = some o ∧
        st'.pending = [o.session_id] ∧ o ∈ st.sessions ∧
        ∀ t ∈ st.sessions, o.last_activity ≤ t.last_activity) := by
  unfold create_session at hc
  by_cases hcap : maxSessions ≤ st.sessions.length
  · rw [if_pos hcap] at hc
    cases ho : oldestSession st.sessions with
    | none => rw [ho] at hc; exact absurd hc (by simp)
    | some o =>
        rw [ho] at hc
        obtain rfl := Option.some.inj hc
        obtain ⟨hmem, hmin⟩ := oldestSession_spec _ _ ho
        have hlenmax : st.sessions.length = maxSessions :=
          le_antisymm hlen hcap
        constructor
        · simp only [runPending, hpend, List.nil_append, List.foldl_cons,
            List.foldl_nil]
          have hflt : (delete_session o.session_id
              (st.sessions ++ [newSessionData sid profile now])).length <
              (st.sessions ++ [newSessionData sid profile now]).length := by
            unfold delete_session
            rw [List.length_filter_lt_length_iff_exists]
            exact ⟨o, List.mem_append_left _ hmem, by simp⟩
          simp only [List.length_append, List.length_cons,
            List.length_nil] at hflt
          omega
        · intro _
          refine ⟨by simp [hlenmax], o, rfl, by simp [hpend], hmem, hmin⟩
  · rw [if_neg hcap] at hc
    obtain rfl := Option.some.inj hc
    constructor
    · simp only [runPending, hpend, List.foldl_nil]
      simp only [List.length_append, List.length_cons, List.length_nil]
      omega
    · intro hcap'
      exact absurd hcap' hcap

theorem capacity_after_eviction_witness :
    create_session 1 "s2" {} 10 regA = some regAfterCreate ∧
    (runPending regAfterCreate).sessions.length ≤ 1 ∧
    regAfterCreate.sessions.length = 2 ∧
    oldestSession regA.sessions = some sessA ∧
    regAfterCreate.pending = [sessA.session_id] := by
  have hmain := capacity_after_eviction 1 "s2" {} 10 regA regAfterCreate
    (by rfl) (by decide) (by rfl)
  refine ⟨by rfl, hmain.1, ?_, by rfl, by rfl⟩
  have := (hmain.2 (by decide)).1
  simpa using this
